import Mathlib

/-!
Shallow embedding of `src/raster/lyft/trainer.py` (class `LyftTrainerModule`)
and theorems about its adversarial search (`pgd_attack`), forward/loss
composition (`forward`), construction (`__init__`) and optimizer
configuration (`configure_optimizers`).

Modelling conventions:
* A tensor of shape `[N, C, H, W]` is a list of samples, each sample a list of
  channels, each channel a flat list of rational pixel values.  `[N]`-shaped
  per-sample tensors are `List ℚ`.  Machine floats are modelled by `ℚ`.
* The underlying network, the `neg_multi_log_likelihood` loss, the autograd
  gradients and the saliency strategy live outside this file's source slice;
  they are abstracted as oracle function parameters.  `detach` is the identity
  on values, so it disappears from the value-level embedding.
* The in-place state the code toggles is made explicit: `ModelState` carries
  the `requires_grad` flag of every model parameter plus the train/eval mode,
  and `TorchState` adds the process-wide grad-enabled flag
  (`torch.set_grad_enabled`) and the `requires_grad` flag of the caller's
  `inputs` tensor.
* Python exceptions are `Except Err`; a function returns its `Except` result
  together with the state at the moment of return or raise.
-/

namespace Raster

abbrev Chan := List ℚ
abbrev Sample := List Chan
abbrev Tensor := List Sample

/-- Executable maximum on `ℚ` (the lattice `max` does not reduce by `decide`). -/
def qmax (a b : ℚ) : ℚ := if a ≤ b then b else a

/-- Executable minimum on `ℚ`. -/
def qmin (a b : ℚ) : ℚ := if a ≤ b then a else b

/-- Executable absolute value on `ℚ`. -/
def qabs (x : ℚ) : ℚ := if x < 0 then -x else x

theorem qmax_eq_max (a b : ℚ) : qmax a b = max a b := (max_def a b).symm

theorem qmin_eq_min (a b : ℚ) : qmin a b = min a b := (min_def a b).symm

theorem qabs_eq_abs (x : ℚ) : qabs x = |x| := by
  unfold qabs
  rcases lt_or_le x 0 with h | h
  · rw [if_pos h, abs_of_neg h]
  · rw [if_neg (not_lt.mpr h), abs_of_nonneg h]

/-- Scalar clamp, torch semantics: `min(max(x, lo), hi)`. -/
def qclamp (lo hi x : ℚ) : ℚ := qmin (qmax x lo) hi

/-- Scalar `torch.sign`. -/
def qsign (x : ℚ) : ℚ := if x < 0 then -1 else if x = 0 then 0 else 1

/-- Elementwise map over a tensor. -/
def mapT (f : ℚ → ℚ) (t : Tensor) : Tensor :=
  t.map (fun s => s.map (fun c => c.map f))

/-- Elementwise combination of two tensors of equal shape. -/
def map2T (f : ℚ → ℚ → ℚ) (t u : Tensor) : Tensor :=
  List.zipWith (fun s s' => List.zipWith (fun c c' => List.zipWith f c c') s s') t u

def addT : Tensor → Tensor → Tensor := map2T (fun a b => a + b)

/-- Tensor `.clamp(0, 1.)`. -/
def clamp01 : Tensor → Tensor := mapT (qclamp 0 1)

def signT : Tensor → Tensor := mapT qsign

def scalT (a : ℚ) : Tensor → Tensor := mapT (fun x => a * x)

def zerosLike : Tensor → Tensor := mapT (fun _ => 0)

/-- Apply `fveh` to the vehicle channels (all but the last three) and `fsem`
to the semantic channels (the last three) of each sample.  This mirrors the
slice pair `((-3, None), eps_semantics), ((0, -3), eps_vehicles)` used in
`pgd_attack`; python slicing makes the two slices a partition of the channels
even when a sample has fewer than three channels, and so do `take`/`drop`
with truncated subtraction. -/
def mapGroups (fveh fsem : ℚ → ℚ) (s : Sample) : Sample :=
  (s.take (s.length - 3)).map (fun c => c.map fveh) ++
    (s.drop (s.length - 3)).map (fun c => c.map fsem)

/-- The per-channel-group `delta[:, s:e] *= eps` scaling of the random start. -/
def scaleGroups (es ev : ℚ) (t : Tensor) : Tensor :=
  t.map (mapGroups (fun x => x * ev) (fun x => x * es))

/-- The per-channel-group `delta.data[:, s:e].clamp_(-eps, eps)` projection. -/
def clampGroups (es ev : ℚ) (t : Tensor) : Tensor :=
  t.map (mapGroups (qclamp (-ev) ev) (qclamp (-es) es))

def sumAbs (c : Chan) : ℚ := (c.map qabs).sum

/-- Value of `grads.data[:, -3:].abs().sum()`. -/
def sumAbsSem (t : Tensor) : ℚ :=
  (t.map (fun s => ((s.drop (s.length - 3)).map sumAbs).sum)).sum

/-- Value of `grads.data[:, :-3].abs().sum()`. -/
def sumAbsVeh (t : Tensor) : ℚ :=
  (t.map (fun s => ((s.take (s.length - 3)).map sumAbs).sum)).sum

/-- Mean of a per-sample vector (`tensor.mean()`).  The claims never touch the
empty case, where torch would produce NaN and this embedding produces 0. -/
def mean (l : List ℚ) : ℚ := l.sum / (l.length : ℚ)

/-- The hyperparameters of `LyftTrainerModule.__init__` that the embedded
logic reads, with the constructor's default values.  `pgd_iters` is a python
`int`, hence `Int` (a negative count is truthy but makes `range` empty). -/
structure HParams where
  saliency_factor : ℚ := 0
  pgd_mode : String := "loss"
  pgd_reg_factor : ℚ := 0
  pgd_iters : Int := 0
  pgd_alpha : ℚ := 1/100
  pgd_random_start : Bool := false
  pgd_eps_vehicles : ℚ := 2/5
  pgd_eps_semantics : ℚ := 5/32
  track_grad : Bool := false
deriving DecidableEq

/-- Mutable model state the trainer toggles in place: one `requires_grad`
flag per parameter (`for param in self.parameters()`) and the train/eval
mode (`self.train()` / `self.eval()`). -/
structure ModelState where
  paramGrads : List Bool
  training : Bool
deriving DecidableEq

/-- Decidable equality for `Except`, so that concrete runs of the embedded
functions can be checked by `decide`. -/
instance {ε α : Type} [DecidableEq ε] [DecidableEq α] : DecidableEq (Except ε α) := fun x y =>
  match x, y with
  | .ok a, .ok b =>
    if h : a = b then isTrue (by rw [h]) else isFalse (by intro hc; cases hc; exact h rfl)
  | .error a, .error b =>
    if h : a = b then isTrue (by rw [h]) else isFalse (by intro hc; cases hc; exact h rfl)
  | .ok _, .error _ => isFalse (by intro hc; cases hc)
  | .error _, .ok _ => isFalse (by intro hc; cases hc)

/-- Python exceptions that the embedded slice can raise. -/
inductive Err where
  /-- Reading a local variable that was never assigned. -/
  | unboundLocal
  /-- Tensor dimension disagreement inside the model or the loss. -/
  | shapeMismatch
  /-- Unpacking a value of the wrong shape. -/
  | typeError
  /-- Missing dictionary key. -/
  | keyError
deriving DecidableEq

/-- Return value of `pgd_attack`: a triple when `return_loss` is true, the
bare adversarial input otherwise. -/
inductive PgdOut where
  | withLoss (adv : Tensor) (initLoss finalLoss : ℚ)
  | plain (adv : Tensor)
deriving DecidableEq

/-- The adversarial input carried by either form of the result. -/
def PgdOut.adv : PgdOut → Tensor
  | .withLoss a _ _ => a
  | .plain a => a

/-- Lines 71-74: freeze every parameter and switch to evaluation mode. -/
def freeze (ms : ModelState) : ModelState :=
  ⟨ms.paramGrads.map (fun _ => false), false⟩

/-- Lines 94-97: set every parameter trainable and switch to training mode.
Note this is unconditional: it does not restore the values the flags had
before `pgd_attack` was entered. -/
def unfreeze (ms : ModelState) : ModelState :=
  ⟨ms.paramGrads.map (fun _ => true), true⟩

/-- Lines 60-69: initialize `delta`, either uniform noise in `[-1, 1]` scaled
per channel group by its epsilon, or zeros.  `rand` is the oracle value of
`torch.rand_like(inputs)` (entries in `[0, 1]`). -/
def deltaInit (hp : HParams) (rand inputs : Tensor) : Tensor :=
  if hp.pgd_random_start ∨ hp.pgd_mode = "negative_sample" then
    scaleGroups hp.pgd_eps_semantics hp.pgd_eps_vehicles
      (mapT (fun r => (r - 1/2) * 2) rand)
  else zerosLike inputs

/-- One body of the loop at lines 77-89: gradient-sign step on `delta`
followed by the per-group projection.  `grad` is the oracle value of
`delta.grad` after `loss.backward()`. -/
def pgdStep (hp : HParams) (grad delta : Tensor) : Tensor :=
  clampGroups hp.pgd_eps_semantics hp.pgd_eps_vehicles
    (addT delta (scalT hp.pgd_alpha (signT grad)))

/-- The `for i in range(K)` loop of lines 77-89, carrying the iteration index
`i`, the current `delta` and the local `init_loss` (`none` while unassigned).
`mloss t` is the oracle for
`neg_multi_log_likelihood(targets, *self.model(t), target_availabilities).mean()`,
which may raise; `grads i` is the oracle for `delta.grad` at iteration `i`. -/
def pgdLoop (hp : HParams) (mloss : Tensor → Except Err ℚ) (grads : ℕ → Tensor)
    (inputs : Tensor) (return_loss : Bool) :
    ℕ → ℕ → Tensor → Option ℚ → Except Err (Tensor × Option ℚ)
  | 0, _, delta, initLoss => .ok (delta, initLoss)
  | k + 1, i, delta, initLoss =>
    match mloss (clamp01 (addT inputs delta)) with
    | .error e => .error e
    | .ok lossVal =>
      pgdLoop hp mloss grads inputs return_loss k (i + 1)
        (pgdStep hp (grads i) delta)
        (if i = 0 ∧ return_loss = true then some lossVal else initLoss)

/-- Embedding of `LyftTrainerModule.pgd_attack` (lines 58-100).  The model,
targets and availability mask are folded into the `mloss` oracle (in
`negative_sample` mode the code also evaluates the model once before the loop
to obtain the pseudo-targets; that call only feeds `mloss` and is folded in
with it).  The returned `ModelState` is the state at the moment of return or
raise; there is no `try/finally` in the source, so an error inside the loop
or in the final loss evaluation escapes with the frozen state. -/
def pgd_attack (hp : HParams) (ms : ModelState) (mloss : Tensor → Except Err ℚ)
    (grads : ℕ → Tensor) (rand inputs : Tensor) (return_loss : Bool) :
    Except Err PgdOut × ModelState :=
  let delta0 := deltaInit hp rand inputs
  let ms1 := freeze ms
  match pgdLoop hp mloss grads inputs return_loss hp.pgd_iters.toNat 0 delta0 none with
  | .error e => (.error e, ms1)
  | .ok (delta, initLoss) =>
    if return_loss then
      -- line 91: the final loss is computed before the model is unfrozen
      match mloss (clamp01 (addT inputs delta)) with
      | .error e => (.error e, ms1)
      | .ok finalLoss =>
        let ms2 := unfreeze ms1
        -- line 99 reads the local init_loss, which was never assigned when
        -- the loop ran zero times: UnboundLocalError after the unfreeze
        match initLoss with
        | none => (.error .unboundLocal, ms2)
        | some il => (.ok (.withLoss (clamp01 (addT inputs delta)) il finalLoss), ms2)
    else
      (.ok (.plain (clamp01 (addT inputs delta))), unfreeze ms1)

/-- C1: the claim says `pgd_attack` leaves every parameter's `requires_grad`
and the train/eval mode at their pre-call values on every exit path.  The
code does neither: on the success path it unconditionally sets every flag to
`True` and calls `self.train()` (here a pre-call eval-mode model comes back
in train mode), and an exception inside the loop propagates with the model
still frozen in eval mode because there is no `try/finally`. -/
theorem pgd_attack_state_not_restored :
    (pgd_attack ({ pgd_iters := 1 } : HParams) ⟨[true, true], false⟩
        (fun _ => .ok 1) (fun _ => [[[0]]]) [[[0]]] [[[0]]] true).2
      ≠ ⟨[true, true], false⟩
    ∧ (pgd_attack ({ pgd_iters := 1 } : HParams) ⟨[true, true], true⟩
        (fun _ => .error .shapeMismatch) (fun _ => [[[0]]]) [[[0]]] [[[0]]] true).2
      = ⟨[false, false], false⟩ :=
by
  with_unfolding_all decide

/-- C2: the claim says a `K = 0` call returns the clamped inputs and never
errors, with `init_loss = final_loss` when requested.  In the code
`init_loss` is only assigned inside the loop body, so with zero iterations
and `return_loss=True` (the default) line 99 raises `UnboundLocalError`.
Only the `return_loss=False` call returns the clamped inputs unchanged. -/
theorem pgd_attack_k0_unbound_local :
    pgd_attack ({} : HParams) ⟨[true], true⟩ (fun _ => .ok 1)
        (fun _ => [[[0]]]) [[[0]]] [[[2]]] true
      = (.error .unboundLocal, ⟨[true], true⟩)
    ∧ pgd_attack ({} : HParams) ⟨[true], true⟩ (fun _ => .ok 1)
        (fun _ => [[[0]]]) [[[0]]] [[[2]]] false
      = (.ok (.plain [[[1]]]), ⟨[true], true⟩) :=
by
  with_unfolding_all decide

/-- Every entry of the tensor lies in the unit interval `[0, 1]`. -/
def entriesIn01 (t : Tensor) : Prop := ∀ s ∈ t, ∀ c ∈ s, ∀ x ∈ c, 0 ≤ x ∧ x ≤ 1

/-- Every entry of every listed channel has absolute value at most `b`. -/
def entriesAbsLe (b : ℚ) (cs : List Chan) : Prop := ∀ c ∈ cs, ∀ x ∈ c, qabs x ≤ b

/-- The per-channel-group epsilon bound on a perturbation: vehicle channels
(all but the last three) bounded by `ev`, semantic channels (the last three)
bounded by `es`. -/
def groupBounded (es ev : ℚ) (t : Tensor) : Prop :=
  ∀ s ∈ t, entriesAbsLe ev (s.take (s.length - 3)) ∧ entriesAbsLe es (s.drop (s.length - 3))

instance (t : Tensor) : Decidable (entriesIn01 t) :=
  inferInstanceAs (Decidable (∀ s ∈ t, ∀ c ∈ s, ∀ x ∈ c, 0 ≤ x ∧ x ≤ 1))

instance (b : ℚ) (cs : List Chan) : Decidable (entriesAbsLe b cs) :=
  inferInstanceAs (Decidable (∀ c ∈ cs, ∀ x ∈ c, qabs x ≤ b))

instance (es ev : ℚ) (t : Tensor) : Decidable (groupBounded es ev t) :=
  inferInstanceAs (Decidable (∀ s ∈ t,
    entriesAbsLe ev (s.take (s.length - 3)) ∧ entriesAbsLe es (s.drop (s.length - 3))))

theorem qclamp01_mem (x : ℚ) : 0 ≤ qclamp 0 1 x ∧ qclamp 0 1 x ≤ 1 := by
  rw [qclamp, qmin_eq_min, qmax_eq_max]
  exact ⟨le_min (le_max_right x 0) zero_le_one, min_le_right _ _⟩

theorem qabs_qclamp_le (e x : ℚ) (he : 0 ≤ e) : qabs (qclamp (-e) e x) ≤ e := by
  rw [qabs_eq_abs, qclamp, qmin_eq_min, qmax_eq_max, abs_le]
  exact ⟨le_min (le_max_right x (-e)) (neg_le_self he), min_le_right _ _⟩

theorem entriesIn01_clamp01 (t : Tensor) : entriesIn01 (clamp01 t) := by
  intro s hs c hc x hx
  simp only [clamp01, mapT, List.mem_map] at hs
  obtain ⟨s0, -, rfl⟩ := hs
  obtain ⟨c0, -, rfl⟩ := List.mem_map.mp hc
  obtain ⟨x0, -, rfl⟩ := List.mem_map.mp hx
  exact qclamp01_mem x0

theorem groupBounded_map (es ev : ℚ) (t : Tensor) (fveh fsem : ℚ → ℚ)
    (h : ∀ s ∈ t, ∀ c ∈ s, ∀ x ∈ c, qabs (fveh x) ≤ ev ∧ qabs (fsem x) ≤ es) :
    groupBounded es ev (t.map (mapGroups fveh fsem)) := by
  intro s' hs'
  obtain ⟨s, hs, rfl⟩ := List.mem_map.mp hs'
  have hA : ((s.take (s.length - 3)).map (fun c => c.map fveh)).length = s.length - 3 := by
    rw [List.length_map, List.length_take, Nat.min_eq_left (Nat.sub_le _ _)]
  have hlen : (mapGroups fveh fsem s).length = s.length := by
    rw [mapGroups, List.length_append, hA, List.length_map, List.length_drop]
    omega
  constructor
  · rw [hlen, mapGroups, List.take_left' hA]
    intro c hc x hx
    obtain ⟨c0, hc0, rfl⟩ := List.mem_map.mp hc
    obtain ⟨x0, hx0, rfl⟩ := List.mem_map.mp hx
    exact (h s hs c0 (List.mem_of_mem_take hc0) x0 hx0).1
  · rw [hlen, mapGroups, List.drop_left' hA]
    intro c hc x hx
    obtain ⟨c0, hc0, rfl⟩ := List.mem_map.mp hc
    obtain ⟨x0, hx0, rfl⟩ := List.mem_map.mp hx
    exact (h s hs c0 (List.mem_of_mem_drop hc0) x0 hx0).2

theorem groupBounded_clampGroups (es ev : ℚ) (hes : 0 ≤ es) (hev : 0 ≤ ev) (t : Tensor) :
    groupBounded es ev (clampGroups es ev t) := by
  unfold clampGroups
  exact groupBounded_map es ev t _ _
    (fun s _ c _ x _ => ⟨qabs_qclamp_le ev x hev, qabs_qclamp_le es x hes⟩)

theorem groupBounded_deltaInit (hp : HParams) (hes : 0 ≤ hp.pgd_eps_semantics)
    (hev : 0 ≤ hp.pgd_eps_vehicles) (rand inputs : Tensor) (hrand : entriesIn01 rand) :
    groupBounded hp.pgd_eps_semantics hp.pgd_eps_vehicles (deltaInit hp rand inputs) := by
  unfold deltaInit
  split
  · unfold scaleGroups
    apply groupBounded_map
    intro s hs c hc x hx
    simp only [mapT, List.mem_map] at hs
    obtain ⟨s0, hs0, rfl⟩ := hs
    obtain ⟨c0, hc0, rfl⟩ := List.mem_map.mp hc
    obtain ⟨r, hr0, rfl⟩ := List.mem_map.mp hx
    have hr := hrand s0 hs0 c0 hc0 r hr0
    have h1 : |(r - 1/2) * 2| ≤ 1 := by
      rw [abs_mul]
      have h2 : |r - 1/2| ≤ 1/2 := by
        rw [abs_le]; constructor <;> linarith [hr.1, hr.2]
      have h3 : |(2 : ℚ)| = 2 := by norm_num
      rw [h3]; linarith
    constructor
    · rw [qabs_eq_abs, abs_mul, abs_of_nonneg hev]
      exact mul_le_of_le_one_left hev h1
    · rw [qabs_eq_abs, abs_mul, abs_of_nonneg hes]
      exact mul_le_of_le_one_left hes h1
  · intro s hs
    have hz : ∀ c ∈ s, ∀ x ∈ c, x = 0 := by
      simp only [zerosLike, mapT, List.mem_map] at hs
      obtain ⟨s0, -, rfl⟩ := hs
      intro c hc x hx
      obtain ⟨c0, -, rfl⟩ := List.mem_map.mp hc
      obtain ⟨x0, -, rfl⟩ := List.mem_map.mp hx
      rfl
    constructor
    · intro c hc x hx
      rw [hz c (List.mem_of_mem_take hc) x hx]
      simpa [qabs] using hev
    · intro c hc x hx
      rw [hz c (List.mem_of_mem_drop hc) x hx]
      simpa [qabs] using hes

theorem groupBounded_pgdStep (hp : HParams) (hes : 0 ≤ hp.pgd_eps_semantics)
    (hev : 0 ≤ hp.pgd_eps_vehicles) (g δ : Tensor) :
    groupBounded hp.pgd_eps_semantics hp.pgd_eps_vehicles (pgdStep hp g δ) := by
  unfold pgdStep
  exact groupBounded_clampGroups _ _ hes hev _

theorem pgdLoop_groupBounded (hp : HParams) (mloss : Tensor → Except Err ℚ)
    (grads : ℕ → Tensor) (inputs : Tensor) (rl : Bool)
    (hes : 0 ≤ hp.pgd_eps_semantics) (hev : 0 ≤ hp.pgd_eps_vehicles) :
    ∀ (k i : ℕ) (δ : Tensor) (il : Option ℚ) (δ' : Tensor) (il' : Option ℚ),
      groupBounded hp.pgd_eps_semantics hp.pgd_eps_vehicles δ →
      pgdLoop hp mloss grads inputs rl k i δ il = .ok (δ', il') →
      groupBounded hp.pgd_eps_semantics hp.pgd_eps_vehicles δ' := by
  intro k
  induction k with
  | zero =>
    intro i δ il δ' il' hδ h
    simp only [pgdLoop, Except.ok.injEq, Prod.mk.injEq] at h
    obtain ⟨rfl, rfl⟩ := h
    exact hδ
  | succ k ih =>
    intro i δ il δ' il' hδ h
    simp only [pgdLoop] at h
    split at h
    · exact absurd h (by simp)
    · exact ih (i + 1) _ _ δ' il' (groupBounded_pgdStep hp hes hev _ _) h

/-- C3: any adversarial input returned by `pgd_attack` has all entries in
`[0, 1]`, and it is the clamp of `inputs` plus a perturbation `delta` whose
entries respect the per-channel-group epsilon bounds (the semantic bound on
the last three channels, the vehicle bound on all preceding channels), for
any iteration count, whenever the configured epsilons are nonnegative and
the random-start noise comes from `[0, 1]` as `torch.rand_like` draws it. -/
theorem pgd_attack_output_bounded (hp : HParams) (ms : ModelState)
    (mloss : Tensor → Except Err ℚ) (grads : ℕ → Tensor) (rand inputs : Tensor)
    (return_loss : Bool) (out : PgdOut) (ms' : ModelState)
    (hes : 0 ≤ hp.pgd_eps_semantics) (hev : 0 ≤ hp.pgd_eps_vehicles)
    (hrand : entriesIn01 rand)
    (h : pgd_attack hp ms mloss grads rand inputs return_loss = (.ok out, ms')) :
    entriesIn01 out.adv ∧
      ∃ δ, groupBounded hp.pgd_eps_semantics hp.pgd_eps_vehicles δ ∧
        out.adv = clamp01 (addT inputs δ) := by
  simp only [pgd_attack] at h
  cases hl : pgdLoop hp mloss grads inputs return_loss hp.pgd_iters.toNat 0
      (deltaInit hp rand inputs) none with
  | error e =>
    rw [hl] at h
    simp at h
  | ok p =>
    obtain ⟨δ, il⟩ := p
    rw [hl] at h
    have hδ : groupBounded hp.pgd_eps_semantics hp.pgd_eps_vehicles δ :=
      pgdLoop_groupBounded hp mloss grads inputs return_loss hes hev
        hp.pgd_iters.toNat 0 (deltaInit hp rand inputs) none δ il
        (groupBounded_deltaInit hp hes hev rand inputs hrand) hl
    cases return_loss with
    | false =>
      simp only [Bool.false_eq_true, if_false, Prod.mk.injEq, Except.ok.injEq] at h
      obtain ⟨rfl, -⟩ := h
      exact ⟨entriesIn01_clamp01 _, δ, hδ, rfl⟩
    | true =>
      simp only [if_true] at h
      cases hm : mloss (clamp01 (addT inputs δ)) with
      | error e =>
        rw [hm] at h
        simp at h
      | ok fl =>
        rw [hm] at h
        cases il with
        | none => simp at h
        | some iv =>
          simp only [Prod.mk.injEq, Except.ok.injEq] at h
          obtain ⟨rfl, -⟩ := h
          exact ⟨entriesIn01_clamp01 _, δ, hδ, rfl⟩

/-- Witness for `pgd_attack_output_bounded` at a concrete one-iteration run. -/
theorem pgd_attack_output_bounded_witness :
    (0 : ℚ) ≤ ({ pgd_iters := 1 } : HParams).pgd_eps_semantics ∧
    (0 : ℚ) ≤ ({ pgd_iters := 1 } : HParams).pgd_eps_vehicles ∧
    entriesIn01 [[[(1 : ℚ)/2]]] ∧
    (entriesIn01 (PgdOut.withLoss [[[1]]] 1 1).adv ∧
      ∃ δ, groupBounded ({ pgd_iters := 1 } : HParams).pgd_eps_semantics
          ({ pgd_iters := 1 } : HParams).pgd_eps_vehicles δ ∧
        (PgdOut.withLoss [[[1]]] 1 1).adv = clamp01 (addT [[[2]]] δ)) :=
  ⟨by norm_num, by norm_num, by with_unfolding_all decide,
    pgd_attack_output_bounded ({ pgd_iters := 1 } : HParams) ⟨[true], true⟩
      (fun _ => .ok 1) (fun _ => [[[1]]]) [[[(1 : ℚ)/2]]] [[[2]]] true
      (.withLoss [[[1]]] 1 1) ⟨[true], true⟩
      (by norm_num) (by norm_num) (by with_unfolding_all decide)
      (by with_unfolding_all decide)⟩

/-- Keys of the diagnostics dictionary `res` built by `forward`; constructor
names transcribe the string keys of the source
(`adv/init_loss`, `adv/final_loss`, `grads/semantics`, `grads/vehicles`,
`grads/total`, `nll`, `adv/nll`, `loss`, `saliency`). -/
inductive Key where
  | advInitLoss
  | advFinalLoss
  | gradsSemantics
  | gradsVehicles
  | gradsTotal
  | nll
  | advNll
  | loss
  | saliency
deriving DecidableEq

/-- Python dictionary read `d[k]` on an association list. -/
def getKey (k : Key) : List (Key × ℚ) → Option ℚ
  | [] => none
  | (k', v) :: rest => if k' = k then some v else getKey k rest

/-- Process-level mutable state touched by `forward` in addition to the model:
the global gradient-enabled flag (`torch.set_grad_enabled`) and the
`requires_grad` flag of the tensor the caller passed as `inputs`. -/
structure TorchState where
  gradEnabled : Bool
  callerInputsRG : Bool
  modelState : ModelState
deriving DecidableEq

/-- Line 115: `bool(self.hparams.saliency_factor) or self.track_grad`. -/
def rgFlag (hp : HParams) : Bool :=
  decide (hp.saliency_factor ≠ 0) || hp.track_grad

/-- Pointwise zip of three per-sample vectors. -/
def vzip3 (f : ℚ → ℚ → ℚ → ℚ) : List ℚ → List ℚ → List ℚ → List ℚ
  | a :: as, b :: bs, c :: cs => f a b c :: vzip3 f as bs cs
  | _, _, _ => []

/-- Lines 128-137: the `res['loss']` (and conditional `res['saliency']`)
entries.  `nllV` is the per-sample nll on the (possibly replaced) inputs,
`advNllV` the per-sample adversarial nll (only read when `reg_pgd`), `salV`
the per-sample saliency scores (only read when saliency is active);
`nll.detach()` equals `nll` in value. -/
def lossEntries (hp : HParams) (grad_enabled reg_pgd : Bool)
    (nllV advNllV salV : List ℚ) : List (Key × ℚ) :=
  if hp.saliency_factor ≠ 0 ∧ grad_enabled = true then
    [(Key.loss,
      if reg_pgd then
        mean (vzip3 (fun s n a => (1 - s) * hp.saliency_factor * n + n
          + hp.pgd_reg_factor * a) salV nllV advNllV)
      else
        mean (List.zipWith (fun s n => (1 - s) * hp.saliency_factor * n + n) salV nllV)),
     (Key.saliency, mean salV)]
  else
    [(Key.loss,
      if reg_pgd then
        mean (List.zipWith (fun n a => n + hp.pgd_reg_factor * a) nllV advNllV)
      else mean nllV)]

/-- Lines 115-137 of `forward`, after the optional attack: flag toggle on the
(possibly replaced) inputs, model run, per-sample nll, gradient diagnostics,
optional adversarial regularizer and loss composition.
`model` is the oracle for `self.model` (pred and conf as opaque tensors),
`nllF` for `neg_multi_log_likelihood(targets, pred, conf, availabilities)`
as a per-sample vector, `inputGrad` for the input gradient returned by
`torch.autograd.grad(nll.unbind(), inputs, ...)`, `salF` for
`self.saliency`.  `replaced` records whether `inputs` was rebound to the
fresh adversarial tensor (in which case line 115 does not touch the caller's
tensor); `advO` is the adversarial input, present whenever an attack ran. -/
def forwardTail (hp : HParams) (st : TorchState) (model : Tensor → Tensor × Tensor)
    (nllF : Tensor → Tensor → Tensor → List ℚ) (inputGrad : Tensor)
    (salF : Tensor → List ℚ) (res0 : List (Key × ℚ)) (advO : Option Tensor)
    (replaced : Bool) (inputsEff targets : Tensor) (grad_enabled reg_pgd : Bool) :
    Except Err (List (Key × ℚ)) × TorchState :=
  let st1 := if replaced then st else { st with callerInputsRG := rgFlag hp }
  let pc := model inputsEff
  let nllV := nllF targets pc.1 pc.2
  let res1 :=
    if (hp.saliency_factor ≠ 0 ∨ hp.track_grad = true) ∧ grad_enabled = true then
      res0 ++ [(Key.gradsSemantics, sumAbsSem inputGrad),
               (Key.gradsVehicles, sumAbsVeh inputGrad),
               (Key.gradsTotal, sumAbsSem inputGrad + sumAbsVeh inputGrad)]
    else res0
  let res2 := res1 ++ [(Key.nll, mean nllV)]
  match reg_pgd, advO with
  | true, some adv =>
    let pa := model adv
    let advNllV :=
      nllF (if hp.pgd_mode = "negative_sample" then pc.1 else targets) pa.1 pa.2
    (.ok (res2 ++ [(Key.advNll, mean advNllV)]
      ++ lossEntries hp grad_enabled true nllV advNllV (salF inputGrad)), st1)
  | true, none =>
    -- unreachable from forward: regularizing implies an attack happened
    (.error .typeError, st1)
  | false, _ =>
    (.ok (res2 ++ lossEntries hp grad_enabled false nllV [] (salF inputGrad)), st1)

/-- Embedding of `LyftTrainerModule.forward` (lines 102-140) up to the
`return_results` selection: builds the diagnostics dictionary.  The oracles
`pgdLossO`, `pgdGradsO`, `pgdRandO` feed the embedded `pgd_attack` exactly
as in `forwardTail`.  Line 104 (`torch.set_grad_enabled(grad_enabled)`) is
the first state write; it is never undone.  `perf_attack` is the truthiness
of `self.hparams.pgd_iters and attack`; replacing `inputs` by the
adversarial batch happens exactly when the regularization factor is zero. -/
def forwardCore (hp : HParams) (st : TorchState) (model : Tensor → Tensor × Tensor)
    (nllF : Tensor → Tensor → Tensor → List ℚ) (inputGrad : Tensor)
    (salF : Tensor → List ℚ) (pgdLossO : Tensor → Except Err ℚ)
    (pgdGradsO : ℕ → Tensor) (pgdRandO : Tensor) (inputs targets : Tensor)
    (grad_enabled attack : Bool) : Except Err (List (Key × ℚ)) × TorchState :=
  let st1 : TorchState := { st with gradEnabled := grad_enabled }
  if hp.pgd_iters ≠ 0 ∧ attack = true then
    match pgd_attack hp st1.modelState pgdLossO pgdGradsO pgdRandO inputs true with
    | (.error e, ms2) => (.error e, { st1 with modelState := ms2 })
    | (.ok (.plain _), ms2) =>
      -- unreachable: return_loss=True always yields the loss triple
      (.error .typeError, { st1 with modelState := ms2 })
    | (.ok (.withLoss adv il fl), ms2) =>
      if hp.pgd_reg_factor = 0 then
        forwardTail hp { st1 with modelState := ms2 } model nllF inputGrad salF
          [(Key.advInitLoss, il), (Key.advFinalLoss, fl)] (some adv) true adv
          targets grad_enabled false
      else
        forwardTail hp { st1 with modelState := ms2 } model nllF inputGrad salF
          [(Key.advInitLoss, il), (Key.advFinalLoss, fl)] (some adv) false inputs
          targets grad_enabled true
  else
    forwardTail hp st1 model nllF inputGrad salF [] none false inputs targets
      grad_enabled false

/-- Return value of `forward`: the diagnostics dictionary when
`return_results` is true, its `loss` entry otherwise. -/
inductive FwdRet where
  | results (res : List (Key × ℚ))
  | lossOnly (l : ℚ)
deriving DecidableEq

/-- Embedding of `forward` including the `return_results` selection of
lines 138-140 (`return res` versus `return res['loss']`). -/
def forward (hp : HParams) (st : TorchState) (model : Tensor → Tensor × Tensor)
    (nllF : Tensor → Tensor → Tensor → List ℚ) (inputGrad : Tensor)
    (salF : Tensor → List ℚ) (pgdLossO : Tensor → Except Err ℚ)
    (pgdGradsO : ℕ → Tensor) (pgdRandO : Tensor) (inputs targets : Tensor)
    (return_results grad_enabled attack : Bool) : Except Err FwdRet × TorchState :=
  match forwardCore hp st model nllF inputGrad salF pgdLossO pgdGradsO pgdRandO
      inputs targets grad_enabled attack with
  | (.error e, st') => (.error e, st')
  | (.ok res, st') =>
    if return_results then (.ok (.results res), st')
    else
      match getKey Key.loss res with
      | some l => (.ok (.lossOnly l), st')
      | none => (.error .keyError, st')

/-- C4: with `saliency_factor = 0.2`, `pgd_iters = 0` and gradients enabled,
the diagnostics dictionary holds exactly the keys `grads/semantics`,
`grads/vehicles`, `grads/total`, `nll`, `loss`, `saliency`; the gradient
entries are the channel-group sums of the absolute input gradient (total
their sum), and the loss is `mean[(1 - saliency) * 0.2 * nll.detach + nll]`. -/
theorem forward_saliency_diagnostics (hp : HParams) (st : TorchState)
    (model : Tensor → Tensor × Tensor) (nllF : Tensor → Tensor → Tensor → List ℚ)
    (inputGrad : Tensor) (salF : Tensor → List ℚ) (pgdLossO : Tensor → Except Err ℚ)
    (pgdGradsO : ℕ → Tensor) (pgdRandO : Tensor) (inputs targets : Tensor)
    (attack : Bool) (hsf : hp.saliency_factor = 1/5) (hit : hp.pgd_iters = 0) :
    forwardCore hp st model nllF inputGrad salF pgdLossO pgdGradsO pgdRandO
        inputs targets true attack =
      (.ok [(Key.gradsSemantics, sumAbsSem inputGrad),
            (Key.gradsVehicles, sumAbsVeh inputGrad),
            (Key.gradsTotal, sumAbsSem inputGrad + sumAbsVeh inputGrad),
            (Key.nll, mean (nllF targets (model inputs).1 (model inputs).2)),
            (Key.loss, mean (List.zipWith (fun s n => (1 - s) * (1/5) * n + n)
              (salF inputGrad) (nllF targets (model inputs).1 (model inputs).2))),
            (Key.saliency, mean (salF inputGrad))],
       { st with gradEnabled := true, callerInputsRG := true }) := by
  have h5 : (1/5 : ℚ) ≠ 0 := by norm_num
  have hrg : rgFlag hp = true := by
    have hd : decide (hp.saliency_factor ≠ 0) = true := by
      rw [decide_eq_true_eq, hsf]
      exact h5
    simp [rgFlag, hd]
  simp [forwardCore, forwardTail, lossEntries, hit, hsf, hrg, h5]

/-- Witness for `forward_saliency_diagnostics` at concrete inputs. -/
theorem forward_saliency_diagnostics_witness :
    ({ saliency_factor := 1/5 } : HParams).saliency_factor = 1/5 ∧
    ({ saliency_factor := 1/5 } : HParams).pgd_iters = 0 ∧
    forwardCore ({ saliency_factor := 1/5 } : HParams) ⟨false, false, ⟨[true], true⟩⟩
        (fun t => (t, t)) (fun _ _ _ => [3]) [[[2]]] (fun _ => [1/2])
        (fun _ => .ok 1) (fun _ => [[[0]]]) [[[0]]] [[[0]]] [[[0]]] true false =
      (.ok [(Key.gradsSemantics, sumAbsSem [[[2]]]),
            (Key.gradsVehicles, sumAbsVeh [[[2]]]),
            (Key.gradsTotal, sumAbsSem [[[2]]] + sumAbsVeh [[[2]]]),
            (Key.nll, mean [3]),
            (Key.loss, mean (List.zipWith (fun s n => (1 - s) * (1/5) * n + n)
              [(1:ℚ)/2] [(3:ℚ)])),
            (Key.saliency, mean [(1:ℚ)/2])],
       { (⟨false, false, ⟨[true], true⟩⟩ : TorchState) with
          gradEnabled := true, callerInputsRG := true }) :=
  ⟨rfl, rfl,
    forward_saliency_diagnostics ({ saliency_factor := 1/5 } : HParams)
      ⟨false, false, ⟨[true], true⟩⟩ (fun t => (t, t)) (fun _ _ _ => [3]) [[[2]]]
      (fun _ => [1/2]) (fun _ => .ok 1) (fun _ => [[[0]]]) [[[0]]] [[[0]]] [[[0]]]
      false rfl rfl⟩

/-- C5: with `pgd_iters = 3`, the attack phase on, saliency and gradient
tracking off and `pgd_reg_factor = 0.5`, the diagnostics additionally hold
`adv/nll`, the main nll stays on the original inputs, and the loss is the
mean of `nll + 0.5 * adv_nll`, where `adv_nll` evaluates the model on the
adversarial inputs against the original targets (or, in `negative_sample`
mode, the detached clean prediction). -/
theorem forward_pgd_regularizer (hp : HParams) (st : TorchState)
    (model : Tensor → Tensor × Tensor) (nllF : Tensor → Tensor → Tensor → List ℚ)
    (inputGrad : Tensor) (salF : Tensor → List ℚ) (pgdLossO : Tensor → Except Err ℚ)
    (pgdGradsO : ℕ → Tensor) (pgdRandO : Tensor) (inputs targets : Tensor)
    (grad_enabled : Bool) (adv : Tensor) (il fl : ℚ) (ms2 : ModelState)
    (hit : hp.pgd_iters = 3) (hsf : hp.saliency_factor = 0)
    (htg : hp.track_grad = false) (hrf : hp.pgd_reg_factor = 1/2)
    (hpgd : pgd_attack hp st.modelState pgdLossO pgdGradsO pgdRandO inputs true =
      (.ok (.withLoss adv il fl), ms2)) :
    forwardCore hp st model nllF inputGrad salF pgdLossO pgdGradsO pgdRandO
        inputs targets grad_enabled true =
      (.ok [(Key.advInitLoss, il), (Key.advFinalLoss, fl),
            (Key.nll, mean (nllF targets (model inputs).1 (model inputs).2)),
            (Key.advNll, mean (nllF
              (if hp.pgd_mode = "negative_sample" then (model inputs).1 else targets)
              (model adv).1 (model adv).2)),
            (Key.loss, mean (List.zipWith (fun n a => n + (1/2) * a)
              (nllF targets (model inputs).1 (model inputs).2)
              (nllF (if hp.pgd_mode = "negative_sample" then (model inputs).1 else targets)
                (model adv).1 (model adv).2)))],
       { st with gradEnabled := grad_enabled, callerInputsRG := false,
                 modelState := ms2 }) := by
  have h3 : hp.pgd_iters ≠ 0 := by rw [hit]; decide
  have h2 : hp.pgd_reg_factor ≠ 0 := by rw [hrf]; norm_num
  have hrg : rgFlag hp = false := by
    simp [rgFlag, hsf, htg]
  have hms : ({ st with gradEnabled := grad_enabled } : TorchState).modelState
      = st.modelState := rfl
  simp [forwardCore, forwardTail, lossEntries, hms, hpgd, h3, h2, hsf, htg, hrg, hrf]

/-- Witness for `forward_pgd_regularizer` at a concrete three-iteration run. -/
theorem forward_pgd_regularizer_witness :
    ({ pgd_iters := 3, pgd_reg_factor := 1/2 } : HParams).pgd_iters = 3 ∧
    ({ pgd_iters := 3, pgd_reg_factor := 1/2 } : HParams).saliency_factor = 0 ∧
    ({ pgd_iters := 3, pgd_reg_factor := 1/2 } : HParams).track_grad = false ∧
    ({ pgd_iters := 3, pgd_reg_factor := 1/2 } : HParams).pgd_reg_factor = 1/2 ∧
    pgd_attack ({ pgd_iters := 3, pgd_reg_factor := 1/2 } : HParams) ⟨[true], true⟩
        (fun _ => .ok 7) (fun _ => [[[0]]]) [[[0]]] [[[0]]] true =
      (.ok (.withLoss [[[0]]] 7 7), ⟨[true], true⟩) ∧
    forwardCore ({ pgd_iters := 3, pgd_reg_factor := 1/2 } : HParams)
        ⟨true, true, ⟨[true], true⟩⟩ (fun t => (t, t)) (fun _ _ _ => [4]) [[[0]]]
        (fun _ => [0]) (fun _ => .ok 7) (fun _ => [[[0]]]) [[[0]]] [[[0]]] [[[0]]]
        true true =
      (.ok [(Key.advInitLoss, 7), (Key.advFinalLoss, 7),
            (Key.nll, mean [4]),
            (Key.advNll, mean (((fun (_ _ _ : Tensor) => [(4:ℚ)])
              (if ({ pgd_iters := 3, pgd_reg_factor := 1/2 } : HParams).pgd_mode
                  = "negative_sample" then [[[0]]] else [[[0]]]) [[[0]]] [[[0]]]))),
            (Key.loss, mean (List.zipWith (fun n a => n + (1/2) * a) [(4:ℚ)]
              (((fun (_ _ _ : Tensor) => [(4:ℚ)])
                (if ({ pgd_iters := 3, pgd_reg_factor := 1/2 } : HParams).pgd_mode
                    = "negative_sample" then [[[0]]] else [[[0]]]) [[[0]]] [[[0]]]))))],
       { (⟨true, true, ⟨[true], true⟩⟩ : TorchState) with
          gradEnabled := true, callerInputsRG := false,
          modelState := (⟨[true], true⟩ : ModelState) }) :=
  ⟨rfl, rfl, rfl, rfl, by with_unfolding_all decide,
    forward_pgd_regularizer ({ pgd_iters := 3, pgd_reg_factor := 1/2 } : HParams)
      ⟨true, true, ⟨[true], true⟩⟩ (fun t => (t, t)) (fun _ _ _ => [4]) [[[0]]]
      (fun _ => [0]) (fun _ => .ok 7) (fun _ => [[[0]]]) [[[0]]] [[[0]]] [[[0]]]
      true [[[0]]] 7 7 ⟨[true], true⟩ rfl rfl rfl rfl
      (by with_unfolding_all decide)⟩

/-- C6: whenever the attack runs (`pgd_iters > 0`, attack phase on) and
returns, the diagnostics record `adv/init_loss` and `adv/final_loss`, and the
main `nll` is computed on the adversarial inputs exactly when
`pgd_reg_factor = 0` (the replacement case) and on the original inputs
otherwise. -/
theorem forward_attack_records_and_replaces (hp : HParams) (st : TorchState)
    (model : Tensor → Tensor × Tensor) (nllF : Tensor → Tensor → Tensor → List ℚ)
    (inputGrad : Tensor) (salF : Tensor → List ℚ) (pgdLossO : Tensor → Except Err ℚ)
    (pgdGradsO : ℕ → Tensor) (pgdRandO : Tensor) (inputs targets : Tensor)
    (grad_enabled : Bool) (adv : Tensor) (il fl : ℚ) (ms2 : ModelState)
    (hit : 0 < hp.pgd_iters)
    (hpgd : pgd_attack hp st.modelState pgdLossO pgdGradsO pgdRandO inputs true =
      (.ok (.withLoss adv il fl), ms2)) :
    ∃ res st',
      forwardCore hp st model nllF inputGrad salF pgdLossO pgdGradsO pgdRandO
          inputs targets grad_enabled true = (.ok res, st') ∧
      getKey Key.advInitLoss res = some il ∧
      getKey Key.advFinalLoss res = some fl ∧
      getKey Key.nll res = some (mean (nllF targets
        (model (if hp.pgd_reg_factor = 0 then adv else inputs)).1
        (model (if hp.pgd_reg_factor = 0 then adv else inputs)).2)) ∧
      (hp.saliency_factor = 0 →
        getKey Key.loss res = some (
          if hp.pgd_reg_factor = 0 then
            mean (nllF targets (model adv).1 (model adv).2)
          else
            mean (List.zipWith (fun n a => n + hp.pgd_reg_factor * a)
              (nllF targets (model inputs).1 (model inputs).2)
              (nllF (if hp.pgd_mode = "negative_sample" then (model inputs).1
                else targets) (model adv).1 (model adv).2)))) := by
  have h0 : hp.pgd_iters ≠ 0 := ne_of_gt hit
  by_cases hr : hp.pgd_reg_factor = 0 <;>
    by_cases hg : (hp.saliency_factor ≠ 0 ∨ hp.track_grad = true) ∧ grad_enabled = true <;>
    simp [forwardCore, forwardTail, lossEntries, hpgd, h0, hr, hg, getKey] <;>
    (intro hsal
     simp [hsal, getKey])

/-- Witness for `forward_attack_records_and_replaces` at a concrete run. -/
theorem forward_attack_records_and_replaces_witness :
    (0 : Int) < ({ pgd_iters := 1 } : HParams).pgd_iters ∧
    pgd_attack ({ pgd_iters := 1 } : HParams) ⟨[true], true⟩ (fun _ => .ok 5)
        (fun _ => [[[0]]]) [[[0]]] [[[0]]] true =
      (.ok (.withLoss [[[0]]] 5 5), ⟨[true], true⟩) ∧
    (∃ res st',
      forwardCore ({ pgd_iters := 1 } : HParams) ⟨true, true, ⟨[true], true⟩⟩
          (fun t => (t, t)) (fun _ _ _ => [6]) [[[0]]] (fun _ => [0])
          (fun _ => .ok 5) (fun _ => [[[0]]]) [[[0]]] [[[0]]] [[[0]]] true true =
        (.ok res, st') ∧
      getKey Key.advInitLoss res = some 5 ∧
      getKey Key.advFinalLoss res = some 5 ∧
      getKey Key.nll res = some (mean [(6 : ℚ)]) ∧
      (({ pgd_iters := 1 } : HParams).saliency_factor = 0 →
        getKey Key.loss res = some (
          if ({ pgd_iters := 1 } : HParams).pgd_reg_factor = 0 then mean [(6 : ℚ)]
          else
            mean (List.zipWith
              (fun n a => n + ({ pgd_iters := 1 } : HParams).pgd_reg_factor * a)
              [(6 : ℚ)] [(6 : ℚ)])))) :=
  ⟨by decide, by with_unfolding_all decide,
    forward_attack_records_and_replaces ({ pgd_iters := 1 } : HParams)
      ⟨true, true, ⟨[true], true⟩⟩ (fun t => (t, t)) (fun _ _ _ => [6]) [[[0]]]
      (fun _ => [0]) (fun _ => .ok 5) (fun _ => [[[0]]]) [[[0]]] [[[0]]] [[[0]]]
      true [[[0]]] 5 5 ⟨[true], true⟩ (by decide) (by with_unfolding_all decide)⟩

/-- C7 counterexample: the claim says the gradient-tracking flag toggles of
`forward` are scoped to the call, restored before return.  At this concrete
call (saliency on, `grad_enabled=False`, no attack) the pre-call state has
the global grad flag enabled and the caller's inputs not requiring grad; the
claim then predicts the post-call state keeps those values, which is false:
line 104 leaves the global flag at `grad_enabled` and line 115 leaves
`inputs.requires_grad` set, with no restoring code on any path. -/
theorem forward_grad_toggle_not_restored :
    ¬ ((forwardCore ({ saliency_factor := 1 } : HParams) ⟨true, false, ⟨[true], true⟩⟩
          (fun t => (t, t)) (fun _ _ _ => [1]) [[[1]]] (fun _ => [0]) (fun _ => .ok 1)
          (fun _ => [[[0]]]) [[[0]]] [[[0]]] [[[0]]] false false).2.gradEnabled = true
        ∧ (forwardCore ({ saliency_factor := 1 } : HParams) ⟨true, false, ⟨[true], true⟩⟩
          (fun t => (t, t)) (fun _ _ _ => [1]) [[[1]]] (fun _ => [0]) (fun _ => .ok 1)
          (fun _ => [[[0]]]) [[[0]]] [[[0]]] [[[0]]] false false).2.callerInputsRG = false) := by
  with_unfolding_all decide

/-- C7 amended: in a non-attack call, `forward`'s side effects on the shared
state are exactly the two documented toggles, but they persist after return
instead of being restored: the process-wide grad flag is left equal to the
`grad_enabled` argument and the caller's `inputs.requires_grad` is left equal
to `saliency_factor != 0 or track_grad`; the model state is untouched. -/
theorem forward_toggles_persist (hp : HParams) (st : TorchState)
    (model : Tensor → Tensor × Tensor) (nllF : Tensor → Tensor → Tensor → List ℚ)
    (inputGrad : Tensor) (salF : Tensor → List ℚ) (pgdLossO : Tensor → Except Err ℚ)
    (pgdGradsO : ℕ → Tensor) (pgdRandO : Tensor) (inputs targets : Tensor)
    (grad_enabled attack : Bool) (hatt : attack = false) :
    (forwardCore hp st model nllF inputGrad salF pgdLossO pgdGradsO pgdRandO
        inputs targets grad_enabled attack).2 =
      { st with gradEnabled := grad_enabled, callerInputsRG := rgFlag hp } := by
  subst hatt
  simp [forwardCore, forwardTail]

/-- Default-constructed hyperparameters, used by concrete witnesses. -/
def hpDefault : HParams := {}

/-- Witness for `forward_toggles_persist` at concrete inputs. -/
theorem forward_toggles_persist_witness :
    false = false ∧
    (forwardCore hpDefault ⟨true, true, ⟨[true], true⟩⟩ (fun t => (t, t))
        (fun _ _ _ => [1]) [[[1]]] (fun _ => [0]) (fun _ => .ok 1) (fun _ => [[[0]]])
        [[[0]]] [[[0]]] [[[0]]] false false).2 =
      { (⟨true, true, ⟨[true], true⟩⟩ : TorchState) with
        gradEnabled := false, callerInputsRG := rgFlag hpDefault } :=
  ⟨rfl, forward_toggles_persist hpDefault ⟨true, true, ⟨[true], true⟩⟩
    (fun t => (t, t)) (fun _ _ _ => [1]) [[[1]]] (fun _ => [0]) (fun _ => .ok 1)
    (fun _ => [[[0]]]) [[[0]]] [[[0]]] [[[0]]] false false rfl⟩

theorem getKey_append (k : Key) (l1 l2 : List (Key × ℚ)) :
    getKey k (l1 ++ l2) =
      match getKey k l1 with
      | some v => some v
      | none => getKey k l2 := by
  induction l1 with
  | nil => rfl
  | cons p rest ih =>
    obtain ⟨k', v⟩ := p
    by_cases hk : k' = k
    · rw [List.cons_append, getKey, if_pos hk, getKey, if_pos hk]
    · rw [List.cons_append, getKey, if_neg hk, getKey, if_neg hk, ih]

theorem lossEntries_loss (hp : HParams) (ge reg : Bool) (nllV advNllV salV : List ℚ) :
    ∃ l, getKey Key.loss (lossEntries hp ge reg nllV advNllV salV) = some l := by
  unfold lossEntries
  split <;> exact ⟨_, rfl⟩

theorem getKey_none_append (k : Key) (P Q : List (Key × ℚ)) (hP : getKey k P = none)
    (hQ : getKey k Q = none) : getKey k (P ++ Q) = none := by
  simp [getKey_append, hP, hQ]

theorem getKey_some_append (k : Key) (P Q : List (Key × ℚ)) (hP : getKey k P = none)
    (l : ℚ) (hQ : getKey k Q = some l) : getKey k (P ++ Q) = some l := by
  simp [getKey_append, hP, hQ]

theorem getKey_loss_exists_append (P L : List (Key × ℚ))
    (hP : getKey Key.loss P = none) (hL : ∃ l, getKey Key.loss L = some l) :
    ∃ l, getKey Key.loss (P ++ L) = some l := by
  obtain ⟨l, hl⟩ := hL
  exact ⟨l, getKey_some_append Key.loss P L hP l hl⟩

theorem forwardTail_loss_exists (hp : HParams) (st : TorchState)
    (model : Tensor → Tensor × Tensor) (nllF : Tensor → Tensor → Tensor → List ℚ)
    (inputGrad : Tensor) (salF : Tensor → List ℚ) (res0 : List (Key × ℚ))
    (advO : Option Tensor) (replaced : Bool) (inputsEff targets : Tensor)
    (ge reg : Bool) (h0 : getKey Key.loss res0 = none)
    (res : List (Key × ℚ)) (st' : TorchState)
    (h : forwardTail hp st model nllF inputGrad salF res0 advO replaced inputsEff
      targets ge reg = (.ok res, st')) :
    ∃ l, getKey Key.loss res = some l := by
  simp only [forwardTail] at h
  split at h
  · simp only [Prod.mk.injEq, Except.ok.injEq] at h
    obtain ⟨rfl, -⟩ := h
    refine getKey_loss_exists_append _ _ ?_ (lossEntries_loss _ _ _ _ _ _)
    apply getKey_none_append
    · apply getKey_none_append
      · by_cases hg : (hp.saliency_factor ≠ 0 ∨ hp.track_grad = true) ∧ ge = true
        · rw [if_pos hg]
          exact getKey_none_append _ _ _ h0 rfl
        · rw [if_neg hg]
          exact h0
      · rfl
    · rfl
  · simp at h
  · simp only [Prod.mk.injEq, Except.ok.injEq] at h
    obtain ⟨rfl, -⟩ := h
    refine getKey_loss_exists_append _ _ ?_ (lossEntries_loss _ _ _ _ _ _)
    apply getKey_none_append
    · by_cases hg : (hp.saliency_factor ≠ 0 ∨ hp.track_grad = true) ∧ ge = true
      · rw [if_pos hg]
        exact getKey_none_append _ _ _ h0 rfl
      · rw [if_neg hg]
        exact h0
    · rfl

theorem forwardCore_loss_exists (hp : HParams) (st : TorchState)
    (model : Tensor → Tensor × Tensor) (nllF : Tensor → Tensor → Tensor → List ℚ)
    (inputGrad : Tensor) (salF : Tensor → List ℚ) (pgdLossO : Tensor → Except Err ℚ)
    (pgdGradsO : ℕ → Tensor) (pgdRandO : Tensor) (inputs targets : Tensor)
    (grad_enabled attack : Bool) (res : List (Key × ℚ)) (st' : TorchState)
    (h : forwardCore hp st model nllF inputGrad salF pgdLossO pgdGradsO pgdRandO
      inputs targets grad_enabled attack = (.ok res, st')) :
    ∃ l, getKey Key.loss res = some l := by
  simp only [forwardCore] at h
  split at h
  · split at h
    · simp at h
    · simp at h
    · split at h
      · refine forwardTail_loss_exists _ _ _ _ _ _ _ _ _ _ _ _ _ ?_ _ _ h
        rfl
      · refine forwardTail_loss_exists _ _ _ _ _ _ _ _ _ _ _ _ _ ?_ _ _ h
        rfl
  · refine forwardTail_loss_exists _ _ _ _ _ _ _ _ _ _ _ _ _ ?_ _ _ h
    rfl

/-- C9: a `forward` call with `return_results=False` returns exactly the
`loss` entry of the diagnostics dictionary that the same call with
`return_results=True` returns, and nothing else. -/
theorem forward_lossOnly_is_loss_entry (hp : HParams) (st : TorchState)
    (model : Tensor → Tensor × Tensor) (nllF : Tensor → Tensor → Tensor → List ℚ)
    (inputGrad : Tensor) (salF : Tensor → List ℚ) (pgdLossO : Tensor → Except Err ℚ)
    (pgdGradsO : ℕ → Tensor) (pgdRandO : Tensor) (inputs targets : Tensor)
    (grad_enabled attack : Bool) (res : List (Key × ℚ)) (st' : TorchState)
    (h : forward hp st model nllF inputGrad salF pgdLossO pgdGradsO pgdRandO
      inputs targets true grad_enabled attack = (.ok (.results res), st')) :
    ∃ l, getKey Key.loss res = some l ∧
      forward hp st model nllF inputGrad salF pgdLossO pgdGradsO pgdRandO
        inputs targets false grad_enabled attack = (.ok (.lossOnly l), st') := by
  unfold forward at h ⊢
  cases hc : forwardCore hp st model nllF inputGrad salF pgdLossO pgdGradsO pgdRandO
      inputs targets grad_enabled attack with
  | mk r s =>
    rw [hc] at h
    cases r with
    | error e => simp at h
    | ok res0 =>
      simp only [if_true, Prod.mk.injEq, Except.ok.injEq, FwdRet.results.injEq] at h
      obtain ⟨rfl, rfl⟩ := h
      obtain ⟨l, hl⟩ := forwardCore_loss_exists hp st model nllF inputGrad salF
        pgdLossO pgdGradsO pgdRandO inputs targets grad_enabled attack res0 s hc
      exact ⟨l, hl, by simp [hl]⟩

/-- Witness for `forward_lossOnly_is_loss_entry` at concrete inputs. -/
theorem forward_lossOnly_is_loss_entry_witness :
    forward ({} : HParams) ⟨true, true, ⟨[true], true⟩⟩ (fun t => (t, t))
        (fun _ _ _ => [2]) [[[0]]] (fun _ => [0]) (fun _ => .ok 1) (fun _ => [[[0]]])
        [[[0]]] [[[0]]] [[[0]]] true true true =
      (.ok (.results [(Key.nll, 2), (Key.loss, 2)]),
        ⟨true, false, ⟨[true], true⟩⟩) ∧
    (∃ l, getKey Key.loss [(Key.nll, 2), (Key.loss, 2)] = some l ∧
      forward ({} : HParams) ⟨true, true, ⟨[true], true⟩⟩ (fun t => (t, t))
          (fun _ _ _ => [2]) [[[0]]] (fun _ => [0]) (fun _ => .ok 1) (fun _ => [[[0]]])
          [[[0]]] [[[0]]] [[[0]]] false true true =
        (.ok (.lossOnly l), ⟨true, false, ⟨[true], true⟩⟩)) :=
  ⟨by with_unfolding_all decide,
    forward_lossOnly_is_loss_entry ({} : HParams) ⟨true, true, ⟨[true], true⟩⟩
      (fun t => (t, t)) (fun _ _ _ => [2]) [[[0]]] (fun _ => [0]) (fun _ => .ok 1)
      (fun _ => [[[0]]]) [[[0]]] [[[0]]] [[[0]]] true true
      [(Key.nll, 2), (Key.loss, 2)] ⟨true, false, ⟨[true], true⟩⟩
      (by with_unfolding_all decide)⟩

/-- Errors `LyftTrainerModule.__init__` can raise: the only failure in the
constructor body is an unresolvable component name
(`getattr(models, self.hparams.model)` raising `AttributeError`, the
`UnknownComponentName` of the spec's taxonomy).  There is no
`InvalidConfiguration` anywhere in the code. -/
inductive InitError where
  | unknownComponentName
deriving DecidableEq

/-- Embedding of `LyftTrainerModule.__init__` (lines 18-56): the
hyperparameters are stored verbatim by `save_hyperparameters` and the model
class is looked up by name in the `raster.models` registry (abstracted as
`modelRegistry`).  The constructor performs no range validation of any
numeric hyperparameter: every `HParams` value is accepted as is. -/
def LyftTrainerModule_init (modelRegistry : String → Option Unit)
    (modelName : String) (hp : HParams) : Except InitError HParams :=
  match modelRegistry modelName with
  | none => .error .unknownComponentName
  | some _ => .ok hp

/-- C8 counterexample: the claim says construction with a negative epsilon
or a negative iteration count fails with `InvalidConfiguration`.  With a
resolvable model name, construction succeeds on exactly such a
configuration: `__init__` has no validation code at all. -/
theorem init_accepts_invalid_config :
    ({ pgd_eps_vehicles := -1, pgd_iters := -5 } : HParams).pgd_eps_vehicles < 0 ∧
    ({ pgd_eps_vehicles := -1, pgd_iters := -5 } : HParams).pgd_iters < 0 ∧
    LyftTrainerModule_init (fun n => if n = "Resnet" then some () else none)
        "Resnet" ({ pgd_eps_vehicles := -1, pgd_iters := -5 } : HParams) =
      .ok ({ pgd_eps_vehicles := -1, pgd_iters := -5 } : HParams) := by
  refine ⟨by norm_num, by decide, ?_⟩
  rfl

/-- C8 amended: construction never validates the numeric hyperparameters;
whenever the model name resolves it succeeds and stores the configuration
verbatim, negative epsilons and iteration counts included. -/
theorem init_no_validation (modelRegistry : String → Option Unit)
    (modelName : String) (hp : HParams)
    (h : modelRegistry modelName = some ()) :
    LyftTrainerModule_init modelRegistry modelName hp = .ok hp := by
  unfold LyftTrainerModule_init
  rw [h]

/-- Witness for `init_no_validation` at a concrete registry and config. -/
theorem init_no_validation_witness :
    (fun n => if n = "Resnet" then some () else none) "Resnet" = some () ∧
    LyftTrainerModule_init (fun n => if n = "Resnet" then some () else none)
        "Resnet" ({ pgd_iters := -5 } : HParams) =
      .ok ({ pgd_iters := -5 } : HParams) :=
  ⟨rfl, init_no_validation (fun n => if n = "Resnet" then some () else none)
    "Resnet" ({ pgd_iters := -5 } : HParams) rfl⟩

/-- Python dictionary assignment `d[k] = v` on an association list without
duplicate keys: overwrite in place, else append. -/
def dictSet : List (String × ℚ) → String → ℚ → List (String × ℚ)
  | [], k, v => [(k, v)]
  | (k', v') :: rest, k, v =>
    if k' = k then (k, v) :: rest else (k', v') :: dictSet rest k v

/-- Python dictionary read `d.get(k)` on an association list. -/
def dictGet (k : String) : List (String × ℚ) → Option ℚ
  | [] => none
  | (k', v) :: rest => if k' = k then some v else dictGet k rest

/-- Python truthiness of the optional `optimizer` name (`None` and the empty
string are falsy). -/
def truthyStr : Option String → Bool
  | none => false
  | some s => decide (s ≠ "")

/-- Embedding of the keyword-argument dictionary that
`configure_optimizers` (lines 157-163) passes to the optimizer constructor:
when an optimizer name is configured, the user's `optimizer_dict` (or an
empty dictionary) with its `lr` entry overwritten by `self.lr`; otherwise
the default `Adam` dictionary whose only entry is `lr`. -/
def configure_optimizers_opt_dict (optimizer : Option String)
    (optimizer_dict : Option (List (String × ℚ))) (lr : ℚ) : List (String × ℚ) :=
  if truthyStr optimizer then dictSet (optimizer_dict.getD []) "lr" lr
  else [("lr", lr)]

theorem dictGet_dictSet (d : List (String × ℚ)) (k : String) (v : ℚ) :
    dictGet k (dictSet d k v) = some v := by
  induction d with
  | nil => simp [dictSet, dictGet]
  | cons p rest ih =>
    obtain ⟨k', v'⟩ := p
    by_cases hk : k' = k
    · rw [dictSet, if_pos hk, dictGet, if_pos rfl]
    · rw [dictSet, if_neg hk, dictGet, if_neg hk]
      exact ih

/-- C10: the keyword arguments handed to the optimizer constructor always
carry `lr = self.lr`, for every configured optimizer name and every
user-supplied `optimizer_dict` — any user `lr` entry is overwritten and
never used. -/
theorem configure_optimizers_lr_override (optimizer : Option String)
    (optimizer_dict : Option (List (String × ℚ))) (lr : ℚ) :
    dictGet "lr" (configure_optimizers_opt_dict optimizer optimizer_dict lr) =
      some lr := by
  unfold configure_optimizers_opt_dict
  split
  · exact dictGet_dictSet _ _ _
  · rw [dictGet, if_pos rfl]

end Raster
